import Mathlib

/-!
Verification development for the front-matter plugin
(`apps/jupyterlab/src/plugins/yaml.ts`): a markdown-it block rule that
detects a leading `---` fenced metadata block, plus the YAML-extraction
and HTML-rendering pipeline attached to it.

The embedding models the source faithfully:
* the source buffer is a `List Char`; line offsets (`bMarks`, `eMarks`,
  `tShift`, `sCount`) are computed exactly as markdown-it's `StateBlock`
  constructor computes them;
* JavaScript string `slice` (including negative indices), `charCodeAt`
  out-of-range behaviour, property access on `null`/`undefined`
  (which throws, modelled as `Except.error`), `typeof`, and truthiness
  are modelled explicitly;
* the external `js-yaml` `load`/`dump` functions are parameters of the
  render boundary; concrete theorems instantiate them with functions
  agreeing with js-yaml's documented behaviour on the inputs involved.
-/

namespace Quarto

/-- JavaScript `String.prototype.slice` on a character list, with the
ECMAScript clamping rules for negative and out-of-range indices. -/
def jsSlice (s : List Char) (a b : Int) : List Char :=
  let len : Int := s.length
  let a2 : Int := if a < 0 then max (len + a) 0 else min a len
  let b2 : Int := if b < 0 then max (len + b) 0 else min b len
  (s.drop a2.toNat).take (b2.toNat - a2.toNat)

/-- `jsSlice` specialised to natural-number indices. -/
def jsSliceN (s : List Char) (a b : Nat) : List Char := jsSlice s a b

/-- markdown-it's `isSpace`: ASCII space or tab. -/
def isSpaceChar (c : Char) : Bool := c = ' ' || c = '\t'

/-- The loop of `StateBlock.skipSpaces`, with the iteration count made a
structural argument: the wrapper passes `s.length - pos`, which is exactly
the number of iterations left before the loop's own `pos < len` bound
fails, so fuel exhaustion and the bound check coincide. -/
def skipSpacesGo (s : List Char) : Nat → Nat → Nat
  | 0, pos => pos
  | f + 1, pos =>
    if h : pos < s.length then
      if isSpaceChar s[pos] then skipSpacesGo s f (pos + 1) else pos
    else pos

/-- `StateBlock.skipSpaces`: advance past spaces/tabs, stopping at the end
of the buffer. -/
def skipSpaces (s : List Char) (pos : Nat) : Nat :=
  skipSpacesGo s (s.length - pos) pos

/-- A `front_matter` token as pushed by the plugin (the fields the rule
sets on the markdown-it token). -/
structure FMToken where
  ttype : String
  hidden : Bool
  markup : List Char
  block : Bool
  map : Nat × Nat
  meta : List Char
deriving DecidableEq

/-- The slice of markdown-it `StateBlock` that the rule reads and writes. -/
structure ParseState where
  src : List Char
  bMarks : List Nat
  eMarks : List Nat
  tShift : List Nat
  sCount : List Nat
  blkIndent : Nat
  parentType : String
  lineMax : Nat
  line : Nat
  tokens : List FMToken
deriving DecidableEq

/-- Accumulator for the line-offset tables. -/
structure Marks where
  bMarks : List Nat
  eMarks : List Nat
  tShift : List Nat
  sCount : List Nat

/-- The scanning loop of markdown-it's `StateBlock` constructor: walks the
source once, recording for each line its begin offset, end offset,
leading-indent character count (`tShift`) and visual indent (`sCount`,
tabs advancing to the next multiple of 4); a final fake entry at the
buffer length is appended. The first argument is the structural
iteration count: the caller passes `s.length`, and `pos` advances by one
each step, so the fuel runs out exactly when `pos` passes the end of the
buffer (the fuel-exhaustion result equals the loop-exit result). -/
def mkMarksGo (s : List Char) : Nat → Nat → Nat → Nat → Nat → Bool →
    List Nat → List Nat → List Nat → List Nat → Marks
  | 0, _, _, _, _, _, bs, es, ts, cs =>
    ⟨bs ++ [s.length], es ++ [s.length], ts ++ [0], cs ++ [0]⟩
  | f + 1, pos, start, indent, offset, indentFound, bs, es, ts, cs =>
    if h : pos < s.length then
      let ch := s[pos]
      if !indentFound && isSpaceChar ch then
        mkMarksGo s f (pos + 1) start (indent + 1)
          (if ch = '\t' then offset + (4 - offset % 4) else offset + 1) indentFound bs es ts cs
      else if ch = '\n' || pos = s.length - 1 then
        let pos2 := if ch ≠ '\n' then pos + 1 else pos
        mkMarksGo s f (pos + 1) (pos2 + 1) 0 0 false
          (bs ++ [start]) (es ++ [pos2]) (ts ++ [indent]) (cs ++ [offset])
      else
        mkMarksGo s f (pos + 1) start indent offset true bs es ts cs
    else
      ⟨bs ++ [s.length], es ++ [s.length], ts ++ [0], cs ++ [0]⟩

/-- Build the parse state markdown-it hands to block rules for a source
buffer: computed line marks, `blkIndent = 0`, `parentType = "root"`,
`lineMax` = number of real lines, empty token stream. -/
def mkState (s : List Char) : ParseState :=
  let m := mkMarksGo s s.length 0 0 0 0 false [] [] [] []
  { src := s, bMarks := m.bMarks, eMarks := m.eMarks, tShift := m.tShift,
    sCount := m.sCount, blkIndent := 0, parentType := "root",
    lineMax := m.bMarks.length - 1, line := 0, tokens := [] }

/-- `bMarks[i] + tShift[i]`: first content offset of line `i`. -/
def lineStart (st : ParseState) (i : Nat) : Nat :=
  st.bMarks.getD i 0 + st.tShift.getD i 0

/-- `eMarks[i]`: end offset (exclusive) of line `i`. -/
def lineEnd (st : ParseState) (i : Nat) : Nat := st.eMarks.getD i 0

/-- `state.src.slice(bMarks[i] + tShift[i], eMarks[i])`. -/
def lineSlice (st : ParseState) (i : Nat) : List Char :=
  jsSliceN st.src (lineStart st i) (lineEnd st i)

/-- The literal `"..."` compared against in the body scan. -/
def dots : List Char := ['.', '.', '.']

/-- The fence marker character `"-"`. -/
def markerChar : Char := '-'

/-- `marker_len`: length of the marker unit string. -/
def markerLen : Nat := 1

/-- `min_markers`: minimum number of marker units in an opening fence. -/
def minMarkers : Nat := 3

/-- The loop body of the opening-run scan, with the iteration count as a
structural argument (the wrapper passes `maxp + 1 - pos`, the exact
number of iterations before the loop condition `pos <= max` fails, so
fuel exhaustion and loop exit coincide). -/
def openRunGo (src : List Char) (maxp : Nat) : Nat → Nat → Nat × Option Nat
  | 0, pos => (pos, none)
  | f + 1, pos =>
    if pos ≤ maxp then
      if src.get? pos = some markerChar then openRunGo src maxp f (pos + 1)
      else (pos, some (pos + 1))
    else (pos, none)

/-- The opening-run loop: `for (pos = start + 1; pos <= max; pos++)`
advancing while the character equals the marker; on the first mismatch
(including an out-of-range read, which in JS yields `undefined`) it
breaks recording `start_content = pos + 1`; if the loop exhausts,
`start_content` stays `undefined` (`none`). -/
def openRunAux (src : List Char) (maxp pos : Nat) : Nat × Option Nat :=
  openRunGo src maxp (maxp + 1 - pos) pos

/-- The loop body of the closing-run scan (same loop as `openRunGo`, but
the break records nothing), iteration count structural. -/
def closeRunGo (src : List Char) (maxp : Nat) : Nat → Nat → Nat
  | 0, pos => pos
  | f + 1, pos =>
    if pos ≤ maxp then
      if src.get? pos = some markerChar then closeRunGo src maxp f (pos + 1)
      else pos
    else pos

/-- The closing-run loop inside the body scan. -/
def closeRunAux (src : List Char) (maxp pos : Nat) : Nat :=
  closeRunGo src maxp (maxp + 1 - pos) pos

/-- Result of the body scan: `nextLine`/`auto_closed` plus the values the
local variables `start`, `max`, `pos` hold when the loop exits (the token
fields are built from them). -/
structure ScanRes where
  nextLine : Nat
  autoClosed : Bool
  start : Nat
  maxp : Nat
  pos : Nat
deriving DecidableEq

/-- The "non-empty line with negative indent" stop condition of the body
scan: `start < max && sCount[nextLine] < blkIndent`. -/
def NegIndentStop (st : ParseState) (i : Nat) : Prop :=
  lineStart st i < lineEnd st i ∧ st.sCount.getD i 0 < st.blkIndent

instance (st : ParseState) (i : Nat) : Decidable (NegIndentStop st i) :=
  inferInstanceAs (Decidable (_ ∧ _))

/-- Position after the closing marker run on line `i`. -/
def closeRunPos (st : ParseState) (i : Nat) : Nat :=
  closeRunAux st.src (lineEnd st i) (lineStart st i + 1)

/-- Position after trimming the run to a whole number of marker units and
skipping trailing spaces, on line `i`. -/
def closeTailPos (st : ParseState) (i : Nat) : Nat :=
  skipSpaces st.src (closeRunPos st i - (closeRunPos st i - lineStart st i) % markerLen)

/-- The four closing-fence conditions at line `i` for opening run length
`mc`: (a) first character after indentation is the marker, (b) relative
indentation `< 4`, (c) marker run at least as long as the opening run,
(d) nothing but spaces after the run up to the end of the line. -/
def IsClosingFence (st : ParseState) (mc i : Nat) : Prop :=
  st.src.get? (lineStart st i) = some markerChar ∧
  st.sCount.getD i 0 - st.blkIndent < 4 ∧
  mc ≤ (closeRunPos st i - lineStart st i) / markerLen ∧
  lineEnd st i ≤ closeTailPos st i

instance (st : ParseState) (mc i : Nat) : Decidable (IsClosingFence st mc i) :=
  inferInstanceAs (Decidable (_ ∧ _ ∧ _ ∧ _))

/-- The body-scan loop of `frontMatter`. The fuel argument `k` encodes the
`nextLine >= endLine` bound: at loop entry with `nextLine = n` the bound
check `n + 1 >= endLine` fails exactly when `endLine - (n + 1) > 0`, so
the caller passes `k = endLine - (startLine + 1)` and `k` counts the
iterations remaining before the bound; `k = 0` is the bound break.
`s`/`m`/`p` are the loop-carried `start`/`max`/`pos` variables (holding
the PREVIOUS examined line's offsets when the `"..."` comparison runs,
exactly as in the source). -/
def scanLoopF (st : ParseState) (mc : Nat) : Nat → Nat → Nat → Nat → Nat → ScanRes
  | 0, s, m, p, n => ⟨n + 1, false, s, m, p⟩
  | k + 1, s, m, p, n =>
    if jsSliceN st.src s m = dots then ⟨n + 1, false, s, m, p⟩
    else
      let s2 := lineStart st (n + 1)
      let m2 := lineEnd st (n + 1)
      if NegIndentStop st (n + 1) then ⟨n + 1, false, s2, m2, p⟩
      else if st.src.get? s2 ≠ some markerChar then scanLoopF st mc k s2 m2 p (n + 1)
      else if 4 ≤ st.sCount.getD (n + 1) 0 - st.blkIndent then scanLoopF st mc k s2 m2 p (n + 1)
      else
        let p1 := closeRunAux st.src m2 (s2 + 1)
        if (p1 - s2) / markerLen < mc then scanLoopF st mc k s2 m2 p1 (n + 1)
        else
          let p2 := skipSpaces st.src (p1 - (p1 - s2) % markerLen)
          if p2 < m2 then scanLoopF st mc k s2 m2 p2 (n + 1)
          else ⟨n + 1, true, s2, m2, p2⟩

/-- The `frontMatter` block rule. Returns the boolean the rule returns
together with the state after the call: unchanged on no-match and in
validation (`silent`) mode; on a match the token is pushed, `parentType`
and `lineMax` are narrowed and then restored, and `state.line` advances
to `nextLine + (auto_closed ? 1 : 0)`. -/
def frontMatter (st : ParseState) (startLine endLine : Nat) (silent : Bool) :
    Bool × ParseState :=
  let start := lineStart st startLine
  let maxp := lineEnd st startLine
  if startLine ≠ 0 ∨ st.src.get? 0 ≠ some markerChar then (false, st)
  else
    let pr := openRunAux st.src maxp (start + 1)
    let pos0 := pr.1
    let startContent := pr.2
    let markerCount := (pos0 - start) / markerLen
    if markerCount < minMarkers then (false, st)
    else
      let pos1 := pos0 - (pos0 - start) % markerLen
      if silent then (true, st)
      else
        let r := scanLoopF st markerCount (endLine - (startLine + 1)) start maxp pos1 startLine
        let oldParent := st.parentType
        let oldLineMax := st.lineMax
        let st1 : ParseState := { st with parentType := "root", lineMax := r.nextLine }
        let tok : FMToken :=
          { ttype := "front_matter", hidden := true,
            markup := jsSliceN st.src startLine r.pos, block := true,
            map := (startLine, r.pos),
            meta := jsSlice st.src ((startContent.getD 0 : Nat) : Int) ((r.start : Int) - 1) }
        let st2 : ParseState := { st1 with tokens := st1.tokens ++ [tok] }
        let st3 : ParseState :=
          { st2 with parentType := oldParent, lineMax := oldLineMax,
                     line := r.nextLine + (if r.autoClosed then 1 else 0) }
        (true, st3)

/-- Run the rule the way markdown-it's tokenizer invokes it on a whole
document: `startLine = 0`, `endLine = lineMax`, non-silent. -/
def scanDoc (s : List Char) : Bool × ParseState :=
  frontMatter (mkState s) 0 (mkState s).lineMax false

/-- JavaScript values as the render side sees them: what `js-yaml`'s
`load` can return and what the plugin's dynamic property accesses
operate on. -/
inductive JSVal where
  | undefined
  | null
  | bool (b : Bool)
  | num (n : Int)
  | str (s : String)
  | arr (xs : List JSVal)
  | obj (fields : List (String × JSVal))

/-- JavaScript `typeof`; note `typeof null` and `typeof` of an array are
both `"object"`. -/
def jsTypeof : JSVal → String
  | .undefined => "undefined"
  | .null => "object"
  | .bool _ => "boolean"
  | .num _ => "number"
  | .str _ => "string"
  | .arr _ => "object"
  | .obj _ => "object"

/-- JavaScript property read `v[key]`: throws a `TypeError` on `null` and
`undefined` (modelled as `Except.error`), returns the field of an object
(`undefined` if missing), and `undefined` on every other value (string
keys such as `"name"` are not own properties of primitives or arrays). -/
def getProp : JSVal → String → Except Unit JSVal
  | .undefined, _ => .error ()
  | .null, _ => .error ()
  | .obj fs, k => .ok (match fs.lookup k with | some v => v | none => .undefined)
  | _, _ => .ok .undefined

/-- JavaScript `delete v[key]`: removes the key from an object, no-op on
anything else (the plugin only reaches its deletes after a successful
property read, so the throwing cases cannot occur there). -/
def deleteProp : JSVal → String → JSVal
  | .obj fs, k => .obj (fs.filter (fun p => !(p.1 == k)))
  | v, _ => v

/-- JavaScript truthiness. -/
def jsTruthy : JSVal → Bool
  | .undefined => false
  | .null => false
  | .bool b => b
  | .num n => !(n == 0)
  | .str s => !(s == "")
  | .arr _ => true
  | .obj _ => true

/-- Whitespace for the regex class `\s` (ASCII part; the inputs in play
are ASCII). -/
def jsWsChar (c : Char) : Bool :=
  c = ' ' || c = '\t' || c = '\n' || c = '\r' || c = '\x0b' || c = '\x0c'

/-- Does the regex `---\s*$` (the argument of the source's `replace`)
match at index `i` of `s`: three dashes there and nothing but whitespace
after them. -/
def fenceMatchAt (s : List Char) (i : Nat) : Bool :=
  ((s.drop i).take 3 == ['-', '-', '-']) && ((s.drop (i + 3)).all jsWsChar)

/-- The source's `str.replace` with regex `---\s*$` (no multiline flag)
and empty replacement: regex search finds the leftmost match
position (the match necessarily extends to the end of the string), and
replacing it with the empty string truncates the string there; no match
leaves the string unchanged. -/
def stripTrailingFence (s : List Char) : List Char :=
  match (List.range s.length).find? (fenceMatchAt s) with
  | some i => s.take i
  | none => s

/-- `parseFrontMatterStr`: strip a trailing fence-shaped suffix, delegate
to the external structured-data parser `load`, and convert any thrown
parse error to `undefined` (the `try`/`catch`). -/
def parseFrontMatterStr (load : List Char → Except Unit JSVal) (s : List Char) : JSVal :=
  match load (stripTrailingFence s) with
  | .ok v => v
  | .error _ => .undefined

/-- An `Author` record: `affil` and `orcid` are optional properties, so a
record built without them (`{name: s}`) is distinct from one carrying an
empty list. -/
structure Author where
  name : String
  affil : Option (List String)
  orcid : Option String
deriving DecidableEq

/-- The `TitleBlock` interface: every field optional. -/
structure TitleBlock where
  title : Option String
  subtitle : Option String
  abstract : Option String
  date : Option String
  modified : Option String
  doi : Option String
  authors : Option (List Author)
deriving DecidableEq

/-- The `str` helper inside `parseAuthor`: read `authorRaw[key]` and keep
it only when it is a string. -/
def strProp (v : JSVal) (key : String) : Except Unit (Option String) :=
  match getProp v key with
  | .error e => .error e
  | .ok (.str s) => .ok (some s)
  | .ok _ => .ok (none)

/-- Processing of one entry of the `affiliations` sequence: a string is
pushed directly; otherwise the guard `typeof(affilRaw === "object")` is
the string `"boolean"`, hence truthy, so the mapping branch runs for
EVERY non-string entry — reading `.name` (which throws on `null` and
`undefined`) and pushing it when it is a string. -/
def parseAffilEntry (acc : List String) (affilRaw : JSVal) : Except Unit (List String) :=
  match affilRaw with
  | .str s => .ok (acc ++ [s])
  | _ =>
    match getProp affilRaw "name" with
    | .error e => .error e
    | .ok (.str s) => .ok (acc ++ [s])
    | .ok _ => .ok acc

/-- The `else if (authorRaw.affiliations)` tier: if the property is
truthy, coerce to an array (a bare value becomes a one-element array)
and fold the entries; otherwise no affiliations. -/
def affiliationsAlt (authorRaw : JSVal) : Except Unit (List String) :=
  match getProp authorRaw "affiliations" with
  | .error e => .error e
  | .ok v =>
    if jsTruthy v then
      (match v with | .arr xs => xs | w => [w]).foldlM parseAffilEntry []
    else .ok []

/-- One iteration of `parseAuthor`'s loop: a string yields
`{name: item}`; a `typeof`-object value (object, array or `null` — the
latter throwing on its first property read) yields the mapping form;
anything else is skipped (`none`). -/
def parseAuthorItem (authorRaw : JSVal) : Except Unit (Option Author) :=
  match authorRaw with
  | .str s => .ok (some ⟨s, none, none⟩)
  | _ =>
    if jsTypeof authorRaw = "object" then
      match strProp authorRaw "affiliation" with
      | .error e => .error e
      | .ok affiliationSimple =>
        match
          (match affiliationSimple with
           | some s => if s = "" then affiliationsAlt authorRaw else .ok [s]
           | none => affiliationsAlt authorRaw) with
        | .error e => .error e
        | .ok affiliations =>
          match strProp authorRaw "name" with
          | .error e => .error e
          | .ok nm =>
            match strProp authorRaw "orcid" with
            | .error e => .error e
            | .ok orc => .ok (some ⟨nm.getD "", some affiliations, orc⟩)
    else .ok none

/-- `parseAuthor`: coerce the input to an array (a non-array becomes a
one-element array) and collect the normalized authors in order. -/
def parseAuthor (author : JSVal) : Except Unit (List Author) :=
  (match author with | .arr xs => xs | v => [v]).foldlM
    (fun acc a =>
      match parseAuthorItem a with
      | .error e => .error e
      | .ok (some au) => .ok (acc ++ [au])
      | .ok none => .ok acc) []

/-- The `readStr` closure of `renderFrontMatter`: read `frontMatter[key]`;
when it is a string, delete the key and return the value, otherwise
leave the mapping untouched and return `undefined`. -/
def readStr (m : JSVal) (key : String) : Except Unit (Option String × JSVal) :=
  match getProp m key with
  | .error e => .error e
  | .ok (.str s) => .ok (some s, deleteProp m key)
  | .ok _ => .ok (none, m)

/-- The extraction block of `renderFrontMatter`: the six `readStr` calls,
then `parseAuthor(frontMatter.author || frontMatter.authors)` followed by
deleting both keys. Returns the `TitleBlock` and the residual value. -/
def extractTitleBlock (m0 : JSVal) : Except Unit (TitleBlock × JSVal) := do
  let (title, m1) ← readStr m0 "title"
  let (subtitle, m2) ← readStr m1 "subtitle"
  let (abstract, m3) ← readStr m2 "abstract"
  let (date, m4) ← readStr m3 "date"
  let (modified, m5) ← readStr m4 "date-modified"
  let (doi, m6) ← readStr m5 "doi"
  let av ← getProp m6 "author"
  let av2 ← if jsTruthy av then pure av else getProp m6 "authors"
  let authors ← parseAuthor av2
  let m7 := deleteProp (deleteProp m6 "author") "authors"
  pure (⟨title, subtitle, abstract, date, modified, doi, some authors⟩, m7)

/-- `renderDocMeta`: one labelled metadata cell. -/
def renderDocMeta (label : String) (vals : List String) : String :=
  String.intercalate "\n"
    (["<div class=\"quarto-meta\">",
      "<p class=\"quarto-meta-title\">" ++ label ++ "</p>"] ++
     vals.map (fun v => "<p>" ++ v ++ "</p>") ++ ["</div>"])

/-- `renderDocMetas`: wrap the metadata cells in the meta-block div. -/
def renderDocMetas (docMetas : List String) : String :=
  String.intercalate "\n"
    (["<div class=\"quarto-meta-block\">"] ++ docMetas ++ ["</div>"])

/-- Truthiness of an optional string field (`undefined` and `""` are
falsy). -/
def strOptTruthy : Option String → Bool
  | some s => !(s == "")
  | none => false

/-- The names/affiliations column computation of `renderTitle`: for each
author push the name, then `max(affil.length - 1, 0)` `&nbsp;` rows (zero
when `affil` is absent), and append the author's affiliations to the
affiliation column. -/
def authorColumns (authors : List Author) : List String × List String :=
  authors.foldl
    (fun acc a =>
      let emptyCount := match a.affil with
        | some l => max (l.length - 1) 0
        | none => 0
      (acc.1 ++ [a.name] ++ List.replicate emptyCount "&nbsp;",
       acc.2 ++ a.affil.getD []))
    ([], [])

/-- `renderTitle`: heading, subtitle, metadata block (authors columns,
date, modified-date — both under the label `"Date"` — and DOI link),
abstract; the pieces joined by newlines. -/
def renderTitle (tb : TitleBlock) : String :=
  let r1 : List String :=
    if strOptTruthy tb.title then ["<h1>" ++ tb.title.getD "" ++ "</h1>"] else []
  let r2 : List String :=
    if strOptTruthy tb.subtitle then
      ["<p class=\"quarto-subtitle\">" ++ tb.subtitle.getD "" ++ "</p>"] else []
  let cols := authorColumns (tb.authors.getD [])
  let names := cols.1
  let affils := cols.2
  let mb1 : List String :=
    if (match tb.authors with | some as => decide (as.length > 0) | none => false) then
      [renderDocMeta (if names.length = 1 then "Author" else "Authors") names] ++
      (if affils.length > 0 then
        [renderDocMeta (if affils.length = 1 then "Affiliation" else "Affiliations") affils]
       else [])
    else []
  let mb2 : List String :=
    if strOptTruthy tb.date then [renderDocMeta "Date" [tb.date.getD ""]] else []
  let mb3 : List String :=
    if strOptTruthy tb.modified then [renderDocMeta "Date" [tb.modified.getD ""]] else []
  let mb4 : List String :=
    if strOptTruthy tb.doi then
      [renderDocMeta "DOI"
        ["<a href=\"https://doi.org/" ++ tb.doi.getD "" ++ "\">" ++ tb.doi.getD "" ++ "</a>"]]
    else []
  let metadataBlocks := mb1 ++ mb2 ++ mb3 ++ mb4
  let r3 : List String :=
    if metadataBlocks.length > 0 then [renderDocMetas metadataBlocks] else []
  let r4 : List String :=
    if strOptTruthy tb.abstract then
      ["<p class=\"quarto-abstract\">" ++ tb.abstract.getD "" ++ "</p>"] else []
  String.intercalate "\n" (r1 ++ r2 ++ r3 ++ r4)

/-- `renderFrontMatter` for one token's markup: parse, and when the
parsed value has `typeof` `"object"` (which includes arrays and `null`),
extract the title block and render it followed by the `<pre>` dump of
the residual; otherwise return the empty string. `load` and `dump` are
the external js-yaml entry points; a `.error` result is a thrown
exception escaping the renderer. -/
def renderFrontMatter (load : List Char → Except Unit JSVal) (dump : JSVal → String)
    (markup : List Char) : Except Unit String :=
  let frontUnknown := parseFrontMatterStr load markup
  if jsTypeof frontUnknown = "object" then do
    let (titleBlock, residual) ← extractTitleBlock frontUnknown
    pure (renderTitle titleBlock ++ "\n<pre>\n" ++ dump residual ++ "\n</pre>")
  else
    pure ""

/-- The opening marker count computed by `frontMatter` at line 0:
`Math.floor((pos - start) / marker_len)` after the opening-run loop. -/
def openMarkerCount (st : ParseState) : Nat :=
  ((openRunAux st.src (lineEnd st 0) (lineStart st 0 + 1)).1 - lineStart st 0) / markerLen

/-- Key list of a field list. -/
def keysOf (fs : List (String × JSVal)) : List String := fs.map Prod.fst

/-- `fs[k]` as JavaScript sees it: the stored value, or `undefined`. -/
def lookupVal (fs : List (String × JSVal)) (k : String) : JSVal :=
  match fs.lookup k with | some v => v | none => .undefined

/-- The string stored at `k`, when the stored value is a string. -/
def strLookup (fs : List (String × JSVal)) (k : String) : Option String :=
  match fs.lookup k with | some (.str s) => some s | _ => none

/-- Is the value stored at `k` a string? -/
def isStrLookup (fs : List (String × JSVal)) (k : String) : Bool :=
  (strLookup fs k).isSome

/-- The argument of `parseAuthor` in `renderFrontMatter`:
`frontMatter.author || frontMatter.authors` — JavaScript `||` takes the
`author` value whenever it is truthy, falling back to `authors`. -/
def authorsArg (fs : List (String × JSVal)) : JSVal :=
  if jsTruthy (lookupVal fs "author") then lookupVal fs "author" else lookupVal fs "authors"

/-- Does extraction remove key `k` from the mapping `fs`?  A recognized
scalar key is removed exactly when its value is a string; `author` and
`authors` are removed unconditionally. -/
def consumedKey (fs : List (String × JSVal)) (k : String) : Bool :=
  (isStrLookup fs "title" && k == "title") ||
  (isStrLookup fs "subtitle" && k == "subtitle") ||
  (isStrLookup fs "abstract" && k == "abstract") ||
  (isStrLookup fs "date" && k == "date") ||
  (isStrLookup fs "date-modified" && k == "date-modified") ||
  (isStrLookup fs "doi" && k == "doi") ||
  k == "author" || k == "authors"

/-- The `TitleBlock` the extraction block builds from a mapping, given
the already-normalized author list. -/
def extractedTB (fs : List (String × JSVal)) (as : List Author) : TitleBlock :=
  ⟨strLookup fs "title", strLookup fs "subtitle", strLookup fs "abstract",
   strLookup fs "date", strLookup fs "date-modified", strLookup fs "doi", some as⟩

/-- The residual mapping after extraction: the fields whose keys were not
consumed, in their original order. -/
def residualFields (fs : List (String × JSVal)) : List (String × JSVal) :=
  fs.filter (fun p => !(consumedKey fs p.1))

/-- The claim's notion of "source keys whose values were moved into
populated TitleBlock fields", following the claim's words: each populated
scalar field contributes its source key, and the `authors` field, when it
holds at least one author, contributes whichever of `author`/`authors`
keys the mapping had. -/
def movedKeysSpec (fs : List (String × JSVal)) (tb : TitleBlock) : List String :=
  (if tb.title.isSome then ["title"] else []) ++
  (if tb.subtitle.isSome then ["subtitle"] else []) ++
  (if tb.abstract.isSome then ["abstract"] else []) ++
  (if tb.date.isSome then ["date"] else []) ++
  (if tb.modified.isSome then ["date-modified"] else []) ++
  (if tb.doi.isSome then ["doi"] else []) ++
  (if (tb.authors.getD []).length > 0 then
    (keysOf fs).filter (fun k => k == "author" || k == "authors")
   else [])

/-- Claim C2 formalized as stated: for a parsed mapping, the moved keys
plus the residual keys are exactly the original keys, with no key in
both. -/
def keyPartitionClaim (fs : List (String × JSVal)) : Prop :=
  ∀ tb res, extractTitleBlock (.obj fs) = .ok (tb, .obj res) →
    (∀ k, k ∈ keysOf fs ↔ k ∈ movedKeysSpec fs tb ++ keysOf res) ∧
    (∀ k, ¬(k ∈ movedKeysSpec fs tb ∧ k ∈ keysOf res))

/-- A structured-data parser that returns `null`: js-yaml's `load`
returns `null` for the explicit empty document `"---\n"`, so this is its
behaviour on the input that claim C1's failing document produces. -/
def loadNull : List Char → Except Unit JSVal := fun _ => .ok .null

/-- A structured-data parser agreeing with js-yaml on the inner text of
the `"---\ntitle: Foo\n---"` block: a single mapping `{title: "Foo"}`. -/
def loadTitleFoo : List Char → Except Unit JSVal := fun s =>
  if s = "---\ntitle: Foo\n".toList then .ok (.obj [("title", .str "Foo")]) else .ok .undefined

/-- A dumper agreeing with js-yaml's `dump` on the empty mapping. -/
def dumpConst : JSVal → String := fun _ => "\x7b\x7d\n"

/-- The document of claim C4. -/
def c4doc : List Char := "---\ntitle: Foo\n---\n\nBody".toList

/-- Does `hay` start with `needle`? (Helper for substring facts about
rendered output.) -/
def startsWithSub : List Char → List Char → Bool
  | [], _ => true
  | _ :: _, [] => false
  | a :: as, b :: bs => a == b && startsWithSub as bs

/-- Does `needle` occur as a contiguous substring of `hay`? -/
def containsSub (needle : List Char) : List Char → Bool
  | [] => startsWithSub needle []
  | c :: rest => startsWithSub needle (c :: rest) || containsSub needle rest

/-- A document whose body line 1 is `"..."` and whose line 2 is a valid
closing fence: used against claims C5/C6. -/
def dotsDoc : List Char := "---\n...\n---".toList

/-- A document with a `"..."` body line and no closing fence. -/
def cex6doc : List Char := "---\n...\nx".toList

/-- A document with an ordinary body line, then `"..."`, then more
content: used for claim C10. -/
def c10doc : List Char := "---\na\n...\nb".toList

/-- A well-formed closed front-matter document used as a witness input. -/
def wellDoc : List Char := "---\nx\n---".toList

/-- An unterminated front-matter document used as a witness input. -/
def openDoc : List Char := "---\nabc".toList

/-- Witness mapping for claim C2: `{title: "T", x: 1, author: "A"}`. -/
def wfs2 : List (String × JSVal) :=
  [("title", .str "T"), ("x", .num 1), ("author", .str "A")]

/-- Witness mapping for claim C3: `{author: "A", authors: "B"}`. -/
def wfs3 : List (String × JSVal) :=
  [("author", .str "A"), ("authors", .str "B")]

/-- The author list both witness mappings normalize to. -/
def wAs2 : List Author := [⟨"A", none, none⟩]

/-- Claim C1 (code bug): the render boundary is NOT exception-free. For
the document `"---\n---"` (an empty front-matter block) the scan emits a
token whose markup is the whole block; `parseFrontMatterStr` strips the
trailing fence leaving `"---\n"`, on which js-yaml's `load` returns
`null` (modelled by `loadNull`); `typeof null` is `"object"`, so the
extraction block runs and its first property read `frontMatter["title"]`
throws a `TypeError` that escapes `renderFrontMatter` — contradicting
the claim that every non-mapping parse collapses to `Absent` and that
rendering never raises. -/
theorem frontMatter_render_throws_on_null_yaml :
    (scanDoc ("---\n---".toList)).1 = true ∧
    ((scanDoc ("---\n---".toList)).2.tokens.map FMToken.markup) = ["---\n---".toList] ∧
    stripTrailingFence ("---\n---".toList) = "---\n".toList ∧
    renderFrontMatter loadNull dumpConst ("---\n---".toList) = .error () := by
  exact ⟨by rfl, by rfl, by rfl, by rfl⟩

/-- Claim C4 (counterexample): on `"---\ntitle: Foo\n---\n\nBody"` the
emitted token's `map` is `[0, 18]` — the source sets
`token.map = [startLine, pos]` where `pos` is the character offset of the
end of the closing fence, not a line index — so the map is not the
claimed `[0, 2]`; and `token.meta` is `"title: Foo"` without the claimed
trailing newline, because `meta = src.slice(start_content, start - 1)`
stops one character before the closing line's begin offset. -/
theorem scan_title_foo_cex :
    ((scanDoc c4doc).2.tokens.map FMToken.map) = [(0, 18)] ∧
    ((0, 18) : Nat × Nat) ≠ (0, 2) ∧
    ((scanDoc c4doc).2.tokens.map FMToken.meta) = ["title: Foo".toList] ∧
    "title: Foo".toList ≠ "title: Foo\n".toList := by
  exact ⟨by rfl, by decide, by rfl, by decide⟩

/-- Claim C4 (amended): the scan of `"---\ntitle: Foo\n---\n\nBody"`
succeeds, consumes lines 0–2 (parsing resumes at line 3), and emits a
token with `map = [0, 18]` (end recorded as a character offset), markup
`"---\ntitle: Foo\n---"` and inner text `"title: Foo"` (no trailing
newline); rendering the markup with a loader agreeing with js-yaml on it
yields output containing `<h1>Foo</h1>` and no author/date metadata
block (no `quarto-meta-title` cell at all). -/
theorem scan_title_foo :
    (scanDoc c4doc).1 = true ∧
    (scanDoc c4doc).2.line = 3 ∧
    ((scanDoc c4doc).2.tokens.map FMToken.markup) = ["---\ntitle: Foo\n---".toList] ∧
    ((scanDoc c4doc).2.tokens.map FMToken.map) = [(0, 18)] ∧
    ((scanDoc c4doc).2.tokens.map FMToken.meta) = ["title: Foo".toList] ∧
    renderFrontMatter loadTitleFoo dumpConst ("---\ntitle: Foo\n---".toList) =
      .ok "<h1>Foo</h1>\n<pre>\n\x7b\x7d\n\n</pre>" ∧
    containsSub ("<h1>Foo</h1>".toList) ("<h1>Foo</h1>\n<pre>\n\x7b\x7d\n\n</pre>".toList) = true ∧
    containsSub ("quarto-meta-title".toList) ("<h1>Foo</h1>\n<pre>\n\x7b\x7d\n\n</pre>".toList) = false := by
  exact ⟨by rfl, by rfl, by rfl, by rfl, by rfl, by rfl, by decide, by decide⟩

/-- Claim C2 (counterexample): the mapping `{authors: 42}` refutes the
key-partition claim. `parseAuthor(42)` yields no author, yet the
`authors` key is deleted unconditionally, so the extraction output (an
entirely empty `TitleBlock` and an empty residual) is identical to the
output for the empty mapping: the key `authors` appears neither among
keys moved into populated fields nor in the residual. -/
theorem extract_key_partition_cex :
    extractTitleBlock (.obj [("authors", .num 42)]) =
      .ok (⟨none, none, none, none, none, none, some []⟩, .obj []) ∧
    extractTitleBlock (.obj []) =
      .ok (⟨none, none, none, none, none, none, some []⟩, .obj []) ∧
    ¬ keyPartitionClaim [("authors", .num 42)] := by
  refine ⟨by rfl, by rfl, fun h => ?_⟩
  have h2 := (h ⟨none, none, none, none, none, none, some []⟩ [] rfl).1 "authors"
  have h3 : "authors" ∈ keysOf [("authors", JSVal.num 42)] := by
    simp [keysOf]
  have h4 := h2.mp h3
  simp [movedKeysSpec, keysOf] at h4

/-- Claim C3 (counterexample): on `{author: "A", authors: "B"}` both keys
are removed, but the value handed to the author normalizer is that of
`author` (JavaScript `author || authors` prefers the truthy `author`),
not the claimed `authors`: the resulting author list is the
normalization of `"A"`, which differs from the normalization of `"B"`. -/
theorem extract_author_precedence_cex :
    extractTitleBlock (.obj [("author", .str "A"), ("authors", .str "B")]) =
      .ok (⟨none, none, none, none, none, none, some [⟨"A", none, none⟩]⟩, .obj []) ∧
    parseAuthor (.str "B") = .ok [⟨"B", none, none⟩] ∧
    [Author.mk "A" none none] ≠ [Author.mk "B" none none] := by
  exact ⟨by rfl, by rfl, by decide⟩

/-- Claim C7 (counterexample): the two-tier affiliation rule as claimed
fails twice. With `{name: "A", affiliation: "", affiliations: "X"}` the
`affiliation` key holds a scalar string, so the claim requires the
affiliation list `[""]`; but `""` is falsy, the code falls through to
the `affiliations` tier and produces `["X"]`. And an `affiliations`
entry that is `null` (neither string nor mapping) is not silently
dropped: the always-taken object branch reads `.name` on `null`, which
throws. -/
theorem parse_author_affiliations_cex :
    parseAuthor (.obj [("name", .str "A"), ("affiliation", .str ""), ("affiliations", .str "X")]) =
      .ok [⟨"A", some ["X"], none⟩] ∧
    [Author.mk "A" (some ["X"]) none] ≠ [Author.mk "A" (some [""]) none] ∧
    parseAuthor (.obj [("name", .str "B"), ("affiliations", .arr [.null])]) = .error () := by
  exact ⟨by rfl, by decide, by rfl⟩

/-- Claim C8 (counterexample): the scalar input `"A"` and the mapping
input `{name: "A"}` do NOT yield identical Author records: the scalar
form is built as `{name: "A"}` with no `affil` property at all, while
the mapping form carries `affil: []` (and `orcid: undefined`). -/
theorem author_scalar_vs_mapping_cex :
    parseAuthor (.str "A") = .ok [⟨"A", none, none⟩] ∧
    parseAuthor (.obj [("name", .str "A")]) = .ok [⟨"A", some [], none⟩] ∧
    Author.mk "A" none none ≠ Author.mk "A" (some []) none := by
  exact ⟨by rfl, by rfl, by decide⟩

/-- Claim C8 (amended): both inputs yield name `"A"`, absent orcid, and
no affiliation strings, but the scalar form leaves the affiliation field
absent while the mapping form sets it to the empty list; the two records
are interchangeable for rendering — `renderTitle` produces the same
string for both. -/
theorem author_scalar_vs_mapping :
    parseAuthor (.str "A") = .ok [⟨"A", none, none⟩] ∧
    parseAuthor (.obj [("name", .str "A")]) = .ok [⟨"A", some [], none⟩] ∧
    renderTitle ⟨none, none, none, none, none, none, some [⟨"A", none, none⟩]⟩ =
      renderTitle ⟨none, none, none, none, none, none, some [⟨"A", some [], none⟩]⟩ := by
  exact ⟨by rfl, by rfl, by rfl⟩

/-- Claim C9: the rule has no observable side effect on no-match (the
returned state is the input state), and after any invocation — in
particular after a successful match, during which `parentType` and
`lineMax` are narrowed while the token is built — both `parentType` and
the line bound `lineMax` hold their prior values when the rule
returns. -/
theorem frontMatter_frame (st : ParseState) (startLine endLine : Nat) (silent : Bool) :
    ((frontMatter st startLine endLine silent).1 = false →
      (frontMatter st startLine endLine silent).2 = st) ∧
    (frontMatter st startLine endLine silent).2.parentType = st.parentType ∧
    (frontMatter st startLine endLine silent).2.lineMax = st.lineMax := by
  simp only [frontMatter]
  split
  · exact ⟨(fun _ => rfl), rfl, rfl⟩
  · split
    · exact ⟨(fun _ => rfl), rfl, rfl⟩
    · split
      · exact ⟨(fun _ => rfl), rfl, rfl⟩
      · exact ⟨(fun h => nomatch h), rfl, rfl⟩

/-- Witness for C9's theorem: at a concrete no-match state (buffer `"x"`)
and at a concrete matching state (the C4 document), instantiating
`frontMatter_frame`. -/
theorem frontMatter_frame_witness :
    (((frontMatter (mkState ("x".toList)) 0 1 false).1 = false →
        (frontMatter (mkState ("x".toList)) 0 1 false).2 = mkState ("x".toList)) ∧
      (frontMatter (mkState ("x".toList)) 0 1 false).2.parentType =
        (mkState ("x".toList)).parentType ∧
      (frontMatter (mkState ("x".toList)) 0 1 false).2.lineMax =
        (mkState ("x".toList)).lineMax) ∧
    (((frontMatter (mkState c4doc) 0 5 false).1 = false →
        (frontMatter (mkState c4doc) 0 5 false).2 = mkState c4doc) ∧
      (frontMatter (mkState c4doc) 0 5 false).2.parentType = (mkState c4doc).parentType ∧
      (frontMatter (mkState c4doc) 0 5 false).2.lineMax = (mkState c4doc).lineMax) :=
  ⟨frontMatter_frame (mkState ("x".toList)) 0 1 false,
   frontMatter_frame (mkState c4doc) 0 5 false⟩


/-- Soundness of the body scan: whenever the loop exits with
`auto_closed = true` at line `r.nextLine`, that line satisfies all four
closing-fence conditions, the negative-indent stop did not fire there,
and every line strictly between the entry line and the closing line was
passed over as ordinary content (no closing conditions, no stop, and no
`"..."` slice triggered the previous-line comparison). -/
theorem scan_sound (st : ParseState) (mc : Nat) :
    ∀ (k s m p n : Nat) (r : ScanRes), scanLoopF st mc k s m p n = r →
      r.autoClosed = true →
      n < r.nextLine ∧ r.nextLine ≤ n + k ∧
      IsClosingFence st mc r.nextLine ∧ ¬ NegIndentStop st r.nextLine ∧
      jsSliceN st.src s m ≠ dots ∧
      (∀ i, n < i → i < r.nextLine →
        ¬ IsClosingFence st mc i ∧ ¬ NegIndentStop st i ∧ lineSlice st i ≠ dots) := by
  intro k
  induction k with
  | zero =>
    intro s m p n r heq hac
    simp only [scanLoopF] at heq
    subst heq
    simp at hac
  | succ k ih =>
    intro s m p n r heq hac
    simp only [scanLoopF] at heq
    split at heq
    · subst heq; simp at hac
    · next hdots =>
      split at heq
      · subst heq; simp at hac
      · next hneg =>
        split at heq
        · next hchar =>
          obtain ⟨i1, i2, i3, i4, i5, i6⟩ := ih _ _ _ _ _ heq hac
          refine ⟨by omega, by omega, i3, i4, hdots, ?_⟩
          intro i hi1 hi2
          rcases Nat.lt_or_ge (n + 1) i with hgt | hle
          · exact i6 i hgt hi2
          · have : i = n + 1 := by omega
            subst this
            exact ⟨(fun hC => hchar hC.1), hneg, i5⟩
        · next hchar =>
          split at heq
          · next hind =>
            obtain ⟨i1, i2, i3, i4, i5, i6⟩ := ih _ _ _ _ _ heq hac
            refine ⟨by omega, by omega, i3, i4, hdots, ?_⟩
            intro i hi1 hi2
            rcases Nat.lt_or_ge (n + 1) i with hgt | hle
            · exact i6 i hgt hi2
            · have : i = n + 1 := by omega
              subst this
              exact ⟨(fun hC => absurd hC.2.1 (by omega)), hneg, i5⟩
          · next hind =>
            split at heq
            · next hrun =>
              obtain ⟨i1, i2, i3, i4, i5, i6⟩ := ih _ _ _ _ _ heq hac
              refine ⟨by omega, by omega, i3, i4, hdots, ?_⟩
              intro i hi1 hi2
              rcases Nat.lt_or_ge (n + 1) i with hgt | hle
              · exact i6 i hgt hi2
              · have : i = n + 1 := by omega
                subst this
                refine ⟨(fun hC => ?_), hneg, i5⟩
                have h3 := hC.2.2.1
                simp only [closeRunPos] at h3
                omega
            · next hrun =>
              split at heq
              · next htail =>
                obtain ⟨i1, i2, i3, i4, i5, i6⟩ := ih _ _ _ _ _ heq hac
                refine ⟨by omega, by omega, i3, i4, hdots, ?_⟩
                intro i hi1 hi2
                rcases Nat.lt_or_ge (n + 1) i with hgt | hle
                · exact i6 i hgt hi2
                · have : i = n + 1 := by omega
                  subst this
                  refine ⟨(fun hC => ?_), hneg, i5⟩
                  have h4 := hC.2.2.2
                  simp only [closeTailPos, closeRunPos] at h4
                  omega
              · next htail =>
                subst heq
                dsimp only
                refine ⟨Nat.lt_succ_self n, by omega, ⟨not_not.mp hchar, by omega, ?_, ?_⟩, hneg, hdots, ?_⟩
                · simp only [closeRunPos]
                  omega
                · simp only [closeTailPos, closeRunPos]
                  omega
                · intro i hi1 hi2
                  omega


/-- If the loop-carried previous-line slice is `"..."`, the very next
iteration stops the scan (same result whether the bound or the `"..."`
comparison fires first). -/
theorem scan_stop_next (st : ParseState) (mc : Nat) (k s m p n : Nat)
    (h : jsSliceN st.src s m = dots) :
    scanLoopF st mc k s m p n = ⟨n + 1, false, s, m, p⟩ := by
  cases k with
  | zero => simp only [scanLoopF]
  | succ k => simp only [scanLoopF, if_pos h]

/-- Completeness of the body scan: if line `j` satisfies the four
closing-fence conditions, the stop conditions do not fire on it, the
bound is not hit before `j`, and every strictly earlier line is passed
over as ordinary content, then the scan accepts line `j` as the closing
fence. -/
theorem scan_complete (st : ParseState) (mc : Nat) (j : Nat) :
    ∀ (k n s m p : Nat),
      n < j → j ≤ n + k →
      jsSliceN st.src s m ≠ dots →
      (∀ i, n < i → i < j →
        ¬ IsClosingFence st mc i ∧ ¬ NegIndentStop st i ∧ lineSlice st i ≠ dots) →
      IsClosingFence st mc j → ¬ NegIndentStop st j →
      ∃ q, scanLoopF st mc k s m p n = ⟨j, true, lineStart st j, lineEnd st j, q⟩ := by
  intro k
  induction k with
  | zero =>
    intro n s m p h1 h2 _ _ _ _
    omega
  | succ k ih =>
    intro n s m p h1 h2 hsm hmid hj hnegj
    obtain ⟨hc1, hc2, hc3, hc4⟩ := hj
    by_cases hj1 : j = n + 1
    · subst hj1
      refine ⟨closeTailPos st (n + 1), ?_⟩
      simp only [scanLoopF, if_neg hsm, if_neg hnegj, if_neg (not_not.mpr hc1),
        if_neg (by omega : ¬ 4 ≤ st.sCount.getD (n + 1) 0 - st.blkIndent)]
      rw [if_neg, if_neg]
      · simp only [closeTailPos, closeRunPos]
      · simp only [closeTailPos, closeRunPos] at hc4 ⊢
        omega
      · simp only [closeRunPos] at hc3
        omega
    · have hj2 : n + 1 < j := by omega
      obtain ⟨hA, hB, hC⟩ := hmid (n + 1) (by omega) hj2
      have hC' : jsSliceN st.src (lineStart st (n + 1)) (lineEnd st (n + 1)) ≠ dots := hC
      have hmid' : ∀ i, n + 1 < i → i < j →
          ¬ IsClosingFence st mc i ∧ ¬ NegIndentStop st i ∧ lineSlice st i ≠ dots :=
        fun i hi1 hi2 => hmid i (by omega) hi2
      by_cases hch : st.src.get? (lineStart st (n + 1)) = some markerChar
      · by_cases hin : 4 ≤ st.sCount.getD (n + 1) 0 - st.blkIndent
        · obtain ⟨q, hq⟩ := ih (n + 1) (lineStart st (n + 1)) (lineEnd st (n + 1)) p hj2
            (by omega) hC' hmid' ⟨hc1, hc2, hc3, hc4⟩ hnegj
          refine ⟨q, ?_⟩
          simp only [scanLoopF, if_neg hsm, if_neg hB, if_neg (not_not.mpr hch), if_pos hin]
          exact hq
        · by_cases hrun : (closeRunAux st.src (lineEnd st (n + 1)) (lineStart st (n + 1) + 1) -
              lineStart st (n + 1)) / markerLen < mc
          · obtain ⟨q, hq⟩ := ih (n + 1) (lineStart st (n + 1)) (lineEnd st (n + 1))
              (closeRunAux st.src (lineEnd st (n + 1)) (lineStart st (n + 1) + 1)) hj2
              (by omega) hC' hmid' ⟨hc1, hc2, hc3, hc4⟩ hnegj
            refine ⟨q, ?_⟩
            simp only [scanLoopF, if_neg hsm, if_neg hB, if_neg (not_not.mpr hch), if_neg hin,
              if_pos hrun]
            exact hq
          · by_cases htail : skipSpaces st.src
                (closeRunAux st.src (lineEnd st (n + 1)) (lineStart st (n + 1) + 1) -
                  (closeRunAux st.src (lineEnd st (n + 1)) (lineStart st (n + 1) + 1) -
                    lineStart st (n + 1)) % markerLen) < lineEnd st (n + 1)
            · obtain ⟨q, hq⟩ := ih (n + 1) (lineStart st (n + 1)) (lineEnd st (n + 1))
                (skipSpaces st.src
                  (closeRunAux st.src (lineEnd st (n + 1)) (lineStart st (n + 1) + 1) -
                    (closeRunAux st.src (lineEnd st (n + 1)) (lineStart st (n + 1) + 1) -
                      lineStart st (n + 1)) % markerLen)) hj2
                (by omega) hC' hmid' ⟨hc1, hc2, hc3, hc4⟩ hnegj
              refine ⟨q, ?_⟩
              simp only [scanLoopF, if_neg hsm, if_neg hB, if_neg (not_not.mpr hch), if_neg hin,
                if_neg hrun, if_pos htail]
              exact hq
            · exact absurd ⟨hch, by omega,
                by (simp only [closeRunPos]; omega),
                by (simp only [closeTailPos, closeRunPos]; omega)⟩ hA
      · obtain ⟨q, hq⟩ := ih (n + 1) (lineStart st (n + 1)) (lineEnd st (n + 1)) p hj2
          (by omega) hC' hmid' ⟨hc1, hc2, hc3, hc4⟩ hnegj
        refine ⟨q, ?_⟩
        simp only [scanLoopF, if_neg hsm, if_neg hB, if_pos hch]
        exact hq



/-- Auto-close: when no line up to the bound closes the fence, stops the
scan, or is a `"..."` line, the loop runs to the bound and exits with
`auto_closed = false` after the last available line. Termination itself
is inherent: `scanLoopF` is a total function of its fuel, which
`frontMatter` instantiates with the distance to `endLine`. -/
theorem scan_autoclose (st : ParseState) (mc : Nat) :
    ∀ (k n s m p : Nat),
      jsSliceN st.src s m ≠ dots →
      (∀ i, n < i → i ≤ n + k →
        ¬ IsClosingFence st mc i ∧ ¬ NegIndentStop st i ∧ lineSlice st i ≠ dots) →
      ∃ s2 m2 q, scanLoopF st mc k s m p n = ⟨n + k + 1, false, s2, m2, q⟩ := by
  intro k
  induction k with
  | zero =>
    intro n s m p _ _
    exact ⟨s, m, p, rfl⟩
  | succ k ih =>
    intro n s m p hsm hmid
    obtain ⟨hA, hB, hC⟩ := hmid (n + 1) (by omega) (by omega)
    have hC' : jsSliceN st.src (lineStart st (n + 1)) (lineEnd st (n + 1)) ≠ dots := hC
    have hmid' : ∀ i, n + 1 < i → i ≤ n + 1 + k →
        ¬ IsClosingFence st mc i ∧ ¬ NegIndentStop st i ∧ lineSlice st i ≠ dots :=
      fun i hi1 hi2 => hmid i (by omega) (by omega)
    have harr : n + 1 + k + 1 = n + (k + 1) + 1 := by omega
    by_cases hch : st.src.get? (lineStart st (n + 1)) = some markerChar
    · by_cases hin : 4 ≤ st.sCount.getD (n + 1) 0 - st.blkIndent
      · obtain ⟨s2, m2, q, hq⟩ := ih (n + 1) (lineStart st (n + 1)) (lineEnd st (n + 1)) p hC' hmid'
        refine ⟨s2, m2, q, ?_⟩
        simp only [scanLoopF, if_neg hsm, if_neg hB, if_neg (not_not.mpr hch), if_pos hin]
        rw [hq, harr]
      · by_cases hrun : (closeRunAux st.src (lineEnd st (n + 1)) (lineStart st (n + 1) + 1) -
            lineStart st (n + 1)) / markerLen < mc
        · obtain ⟨s2, m2, q, hq⟩ := ih (n + 1) (lineStart st (n + 1)) (lineEnd st (n + 1))
            (closeRunAux st.src (lineEnd st (n + 1)) (lineStart st (n + 1) + 1)) hC' hmid'
          refine ⟨s2, m2, q, ?_⟩
          simp only [scanLoopF, if_neg hsm, if_neg hB, if_neg (not_not.mpr hch), if_neg hin,
            if_pos hrun]
          rw [hq, harr]
        · by_cases htail : skipSpaces st.src
              (closeRunAux st.src (lineEnd st (n + 1)) (lineStart st (n + 1) + 1) -
                (closeRunAux st.src (lineEnd st (n + 1)) (lineStart st (n + 1) + 1) -
                  lineStart st (n + 1)) % markerLen) < lineEnd st (n + 1)
          · obtain ⟨s2, m2, q, hq⟩ := ih (n + 1) (lineStart st (n + 1)) (lineEnd st (n + 1))
              (skipSpaces st.src
                (closeRunAux st.src (lineEnd st (n + 1)) (lineStart st (n + 1) + 1) -
                  (closeRunAux st.src (lineEnd st (n + 1)) (lineStart st (n + 1) + 1) -
                    lineStart st (n + 1)) % markerLen)) hC' hmid'
            refine ⟨s2, m2, q, ?_⟩
            simp only [scanLoopF, if_neg hsm, if_neg hB, if_neg (not_not.mpr hch), if_neg hin,
              if_neg hrun, if_pos htail]
            rw [hq, harr]
          · exact absurd ⟨hch, by omega,
              by (simp only [closeRunPos]; omega),
              by (simp only [closeTailPos, closeRunPos]; omega)⟩ hA
    · obtain ⟨s2, m2, q, hq⟩ := ih (n + 1) (lineStart st (n + 1)) (lineEnd st (n + 1)) p hC' hmid'
      refine ⟨s2, m2, q, ?_⟩
      simp only [scanLoopF, if_neg hsm, if_neg hB, if_pos hch]
      rw [hq, harr]

/-- The `"..."` termination path: if the scan passes over all lines up to
a line `j` whose slice is `"..."`, it stops right after examining `j`,
with `auto_closed = false` and `nextLine = j + 1`, regardless of whether
the bound or the `"..."` comparison fires at the next iteration. -/
theorem scan_dots (st : ParseState) (mc : Nat) (j : Nat) :
    ∀ (k n s m p : Nat),
      n < j → j ≤ n + k →
      jsSliceN st.src s m ≠ dots →
      (∀ i, n < i → i < j → lineSlice st i ≠ dots) →
      (∀ i, n < i → i ≤ j → ¬ IsClosingFence st mc i ∧ ¬ NegIndentStop st i) →
      lineSlice st j = dots →
      ∃ q, scanLoopF st mc k s m p n = ⟨j + 1, false, lineStart st j, lineEnd st j, q⟩ := by
  intro k
  induction k with
  | zero =>
    intro n s m p h1 h2 _ _ _ _
    omega
  | succ k ih =>
    intro n s m p h1 h2 hsm hpre hmid hdj
    obtain ⟨hA, hB⟩ := hmid (n + 1) (by omega) (by omega)
    have hdj' : jsSliceN st.src (lineStart st j) (lineEnd st j) = dots := hdj
    by_cases hj1 : j = n + 1
    · subst hj1
      by_cases hch : st.src.get? (lineStart st (n + 1)) = some markerChar
      · by_cases hin : 4 ≤ st.sCount.getD (n + 1) 0 - st.blkIndent
        · refine ⟨p, ?_⟩
          simp only [scanLoopF, if_neg hsm, if_neg hB, if_neg (not_not.mpr hch), if_pos hin]
          exact scan_stop_next st mc k _ _ _ _ hdj'
        · by_cases hrun : (closeRunAux st.src (lineEnd st (n + 1)) (lineStart st (n + 1) + 1) -
              lineStart st (n + 1)) / markerLen < mc
          · refine ⟨closeRunAux st.src (lineEnd st (n + 1)) (lineStart st (n + 1) + 1), ?_⟩
            simp only [scanLoopF, if_neg hsm, if_neg hB, if_neg (not_not.mpr hch), if_neg hin,
              if_pos hrun]
            exact scan_stop_next st mc k _ _ _ _ hdj'
          · by_cases htail : skipSpaces st.src
                (closeRunAux st.src (lineEnd st (n + 1)) (lineStart st (n + 1) + 1) -
                  (closeRunAux st.src (lineEnd st (n + 1)) (lineStart st (n + 1) + 1) -
                    lineStart st (n + 1)) % markerLen) < lineEnd st (n + 1)
            · refine ⟨skipSpaces st.src
                  (closeRunAux st.src (lineEnd st (n + 1)) (lineStart st (n + 1) + 1) -
                    (closeRunAux st.src (lineEnd st (n + 1)) (lineStart st (n + 1) + 1) -
                      lineStart st (n + 1)) % markerLen), ?_⟩
              simp only [scanLoopF, if_neg hsm, if_neg hB, if_neg (not_not.mpr hch), if_neg hin,
                if_neg hrun, if_pos htail]
              exact scan_stop_next st mc k _ _ _ _ hdj'
            · exact absurd ⟨hch, by omega,
                by (simp only [closeRunPos]; omega),
                by (simp only [closeTailPos, closeRunPos]; omega)⟩ hA
      · refine ⟨p, ?_⟩
        simp only [scanLoopF, if_neg hsm, if_neg hB, if_pos hch]
        exact scan_stop_next st mc k _ _ _ _ hdj'
    · have hj2 : n + 1 < j := by omega
      have hC' : jsSliceN st.src (lineStart st (n + 1)) (lineEnd st (n + 1)) ≠ dots :=
        hpre (n + 1) (by omega) (by omega)
      have hpre' : ∀ i, n + 1 < i → i < j → lineSlice st i ≠ dots :=
        fun i hi1 hi2 => hpre i (by omega) hi2
      have hmid' : ∀ i, n + 1 < i → i ≤ j → ¬ IsClosingFence st mc i ∧ ¬ NegIndentStop st i :=
        fun i hi1 hi2 => hmid i (by omega) hi2
      by_cases hch : st.src.get? (lineStart st (n + 1)) = some markerChar
      · by_cases hin : 4 ≤ st.sCount.getD (n + 1) 0 - st.blkIndent
        · obtain ⟨q, hq⟩ := ih (n + 1) (lineStart st (n + 1)) (lineEnd st (n + 1)) p hj2
            (by omega) hC' hpre' hmid' hdj
          refine ⟨q, ?_⟩
          simp only [scanLoopF, if_neg hsm, if_neg hB, if_neg (not_not.mpr hch), if_pos hin]
          exact hq
        · by_cases hrun : (closeRunAux st.src (lineEnd st (n + 1)) (lineStart st (n + 1) + 1) -
              lineStart st (n + 1)) / markerLen < mc
          · obtain ⟨q, hq⟩ := ih (n + 1) (lineStart st (n + 1)) (lineEnd st (n + 1))
              (closeRunAux st.src (lineEnd st (n + 1)) (lineStart st (n + 1) + 1)) hj2
              (by omega) hC' hpre' hmid' hdj
            refine ⟨q, ?_⟩
            simp only [scanLoopF, if_neg hsm, if_neg hB, if_neg (not_not.mpr hch), if_neg hin,
              if_pos hrun]
            exact hq
          · by_cases htail : skipSpaces st.src
                (closeRunAux st.src (lineEnd st (n + 1)) (lineStart st (n + 1) + 1) -
                  (closeRunAux st.src (lineEnd st (n + 1)) (lineStart st (n + 1) + 1) -
                    lineStart st (n + 1)) % markerLen) < lineEnd st (n + 1)
            · obtain ⟨q, hq⟩ := ih (n + 1) (lineStart st (n + 1)) (lineEnd st (n + 1))
                (skipSpaces st.src
                  (closeRunAux st.src (lineEnd st (n + 1)) (lineStart st (n + 1) + 1) -
                    (closeRunAux st.src (lineEnd st (n + 1)) (lineStart st (n + 1) + 1) -
                      lineStart st (n + 1)) % markerLen)) hj2
                (by omega) hC' hpre' hmid' hdj
              refine ⟨q, ?_⟩
              simp only [scanLoopF, if_neg hsm, if_neg hB, if_neg (not_not.mpr hch), if_neg hin,
                if_neg hrun, if_pos htail]
              exact hq
            · exact absurd ⟨hch, by omega,
                by (simp only [closeRunPos]; omega),
                by (simp only [closeTailPos, closeRunPos]; omega)⟩
                (hmid (n + 1) (by omega) (by omega)).1
      · obtain ⟨q, hq⟩ := ih (n + 1) (lineStart st (n + 1)) (lineEnd st (n + 1)) p hj2
          (by omega) hC' hpre' hmid' hdj
        refine ⟨q, ?_⟩
        simp only [scanLoopF, if_neg hsm, if_neg hB, if_pos hch]
        exact hq


/-- Claim C5 (amended): during the body scan started at line 0, a line
`j` is accepted as the closing fence if and only if it satisfies all
four conditions (marker first character, relative indent `< 4`, run at
least the opening run, whitespace-only tail), the negative-indent stop
does not fire on it, AND the scan is still active when it reaches `j`:
no earlier line satisfied the four conditions or triggered the
negative-indent stop, and no line before `j` (the opening line included)
had slice `"..."` — the latter conditions are missing from the claim as
stated, which is refuted by `closing_fence_accept_cex`. -/
theorem closing_fence_accept_iff (st : ParseState) (mc endLine j p : Nat)
    (hj : 0 < j) (hjE : j < endLine) :
    ((scanLoopF st mc (endLine - 1) (lineStart st 0) (lineEnd st 0) p 0).autoClosed = true ∧
     (scanLoopF st mc (endLine - 1) (lineStart st 0) (lineEnd st 0) p 0).nextLine = j)
    ↔ (IsClosingFence st mc j ∧ ¬ NegIndentStop st j ∧
       (∀ i, i < j → 0 < i → ¬ IsClosingFence st mc i ∧ ¬ NegIndentStop st i) ∧
       (∀ i, i < j → lineSlice st i ≠ dots)) := by
  constructor
  · rintro ⟨hac, hnl⟩
    obtain ⟨i1, i2, i3, i4, i5, i6⟩ :=
      scan_sound st mc (endLine - 1) (lineStart st 0) (lineEnd st 0) p 0 _ rfl hac
    rw [hnl] at i3 i4 i6
    refine ⟨i3, i4, ?_, ?_⟩
    · intro i hi1 hi2
      obtain ⟨a, b, c⟩ := i6 i hi2 hi1
      exact ⟨a, b⟩
    · intro i hi1
      rcases Nat.eq_zero_or_pos i with h0 | h0
      · subst h0; exact i5
      · exact (i6 i h0 hi1).2.2
  · rintro ⟨h1, h2, h3, h4⟩
    obtain ⟨q, hq⟩ := scan_complete st mc j (endLine - 1) 0 (lineStart st 0) (lineEnd st 0) p hj
      (by omega) (h4 0 hj)
      (fun i hi1 hi2 => ⟨(h3 i hi2 hi1).1, (h3 i hi2 hi1).2, h4 i hi2⟩) h1 h2
    rw [hq]
    exact ⟨rfl, rfl⟩

/-- Claim C6 (amended): for a buffer with a valid opening fence at line 0
and no valid closing line before `endLine`, IF additionally no body line
triggers the negative-indent stop and no line's slice is `"..."`, the
scan terminates, the rule matches, and the block is implicitly closed at
the bound, consuming through the last available line
(`state.line = endLine`). Termination holds unconditionally because the
scan is a total function; but without the extra conditions the block can
close before the bound, as `autoclose_at_bound_cex` shows, so the claim
as stated is refuted. -/
theorem autoclose_at_bound (st : ParseState) (endLine : Nat)
    (hchar : st.src.get? 0 = some markerChar)
    (hmc : ¬ openMarkerCount st < minMarkers)
    (hE : 1 ≤ endLine)
    (hd0 : lineSlice st 0 ≠ dots)
    (hno : ∀ i, i < endLine → 0 < i →
      ¬ IsClosingFence st (openMarkerCount st) i ∧ ¬ NegIndentStop st i ∧
      lineSlice st i ≠ dots) :
    (frontMatter st 0 endLine false).1 = true ∧
    (frontMatter st 0 endLine false).2.line = endLine := by
  simp only [openMarkerCount] at hmc hno
  obtain ⟨s2, m2, q, hq⟩ := scan_autoclose st
    (((openRunAux st.src (lineEnd st 0) (lineStart st 0 + 1)).1 - lineStart st 0) / markerLen)
    (endLine - 1) 0 (lineStart st 0) (lineEnd st 0)
    ((openRunAux st.src (lineEnd st 0) (lineStart st 0 + 1)).1 -
      ((openRunAux st.src (lineEnd st 0) (lineStart st 0 + 1)).1 - lineStart st 0) % markerLen)
    hd0 (fun i hi1 hi2 => hno i (by omega) hi1)
  have hguard : ¬ ((0 : Nat) ≠ 0 ∨ st.src.get? 0 ≠ some markerChar) := by
    intro h
    rcases h with h | h
    · exact h rfl
    · exact h hchar
  simp only [frontMatter, if_neg hguard, if_neg hmc, if_neg Bool.false_ne_true, Nat.zero_add]
  rw [hq]
  refine ⟨trivial, ?_⟩
  dsimp only
  rw [if_neg Bool.false_ne_true]
  omega


/-- Claim C10: a body line `j` whose content between its start and end
offsets is exactly `"..."` terminates the block even though it satisfies
none of the marker-character closing-fence conditions; because the
comparison is made against the offsets of the previously examined line,
the block ends with line `j` as the last consumed line and behaves like
an auto-close: the rule matches and `state.line = j + 1`, so the next
rule resumes on the line immediately after the `"..."` line. -/
theorem dots_line_terminates (st : ParseState) (endLine j : Nat)
    (hchar : st.src.get? 0 = some markerChar)
    (hmc : ¬ openMarkerCount st < minMarkers)
    (hj : 0 < j) (hjE : j < endLine)
    (hdots : lineSlice st j = dots)
    (hpre : ∀ i, i < j → lineSlice st i ≠ dots)
    (hcont : ∀ i, i ≤ j → 0 < i →
      ¬ IsClosingFence st (openMarkerCount st) i ∧ ¬ NegIndentStop st i) :
    (frontMatter st 0 endLine false).1 = true ∧
    (frontMatter st 0 endLine false).2.line = j + 1 := by
  simp only [openMarkerCount] at hmc hcont
  obtain ⟨q, hq⟩ := scan_dots st
    (((openRunAux st.src (lineEnd st 0) (lineStart st 0 + 1)).1 - lineStart st 0) / markerLen)
    j (endLine - 1) 0 (lineStart st 0) (lineEnd st 0)
    ((openRunAux st.src (lineEnd st 0) (lineStart st 0 + 1)).1 -
      ((openRunAux st.src (lineEnd st 0) (lineStart st 0 + 1)).1 - lineStart st 0) % markerLen)
    hj (by omega) (hpre 0 hj)
    (fun i hi1 hi2 => hpre i hi2)
    (fun i hi1 hi2 => hcont i hi2 hi1) hdots
  have hguard : ¬ ((0 : Nat) ≠ 0 ∨ st.src.get? 0 ≠ some markerChar) := by
    intro h
    rcases h with h | h
    · exact h rfl
    · exact h hchar
  simp only [frontMatter, if_neg hguard, if_neg hmc, if_neg Bool.false_ne_true, Nat.zero_add]
  rw [hq]
  refine ⟨trivial, ?_⟩
  dsimp only
  rw [if_neg Bool.false_ne_true]


/-- Claim C5 (counterexample): in `"---\n...\n---"` scanned with
`endLine = 3`, line 2 satisfies all four closing-fence conditions and no
stop condition, yet the scan does not accept it: the `"..."` on line 1
ends the scan first (`auto_closed = false`, `nextLine = 2`), and the
whole rule leaves `state.line = 2` — had line 2 been accepted as the
closing fence, `state.line` would be 3. So "accepted iff the four
conditions hold" is false as stated. -/
theorem closing_fence_accept_cex :
    IsClosingFence (mkState dotsDoc) 3 2 ∧
    ¬ NegIndentStop (mkState dotsDoc) 2 ∧
    (scanLoopF (mkState dotsDoc) 3 2 (lineStart (mkState dotsDoc) 0)
      (lineEnd (mkState dotsDoc) 0) 3 0).autoClosed = false ∧
    (scanLoopF (mkState dotsDoc) 3 2 (lineStart (mkState dotsDoc) 0)
      (lineEnd (mkState dotsDoc) 0) 3 0).nextLine = 2 ∧
    (scanDoc dotsDoc).1 = true ∧
    (scanDoc dotsDoc).2.line = 2 := by
  exact ⟨by decide, by decide, by decide, by decide, by decide, by decide⟩

/-- Witness for C5's amended theorem at the document `"---\nx\n---"`
(`mc = 3`, `endLine = 3`, `j = 2`, entry `pos = 3`). -/
theorem closing_fence_accept_iff_witness :
    ((scanLoopF (mkState wellDoc) 3 (3 - 1) (lineStart (mkState wellDoc) 0)
        (lineEnd (mkState wellDoc) 0) 3 0).autoClosed = true ∧
      (scanLoopF (mkState wellDoc) 3 (3 - 1) (lineStart (mkState wellDoc) 0)
        (lineEnd (mkState wellDoc) 0) 3 0).nextLine = 2)
    ↔ (IsClosingFence (mkState wellDoc) 3 2 ∧ ¬ NegIndentStop (mkState wellDoc) 2 ∧
       (∀ i, i < 2 → 0 < i →
         ¬ IsClosingFence (mkState wellDoc) 3 i ∧ ¬ NegIndentStop (mkState wellDoc) i) ∧
       (∀ i, i < 2 → lineSlice (mkState wellDoc) i ≠ dots)) :=
  closing_fence_accept_iff (mkState wellDoc) 3 3 2 3 (by decide) (by decide)

/-- Claim C6 (counterexample): in `"---\n...\nx"` (three lines, bound
`endLine = lineMax = 3`) no line satisfies the closing-fence conditions,
yet the block does NOT auto-close at the bound consuming through the
last line: the `"..."` line ends it early at `state.line = 2 ≠ 3`. -/
theorem autoclose_at_bound_cex :
    (mkState cex6doc).lineMax = 3 ∧
    (∀ i, i < 3 → 0 < i →
      ¬ IsClosingFence (mkState cex6doc) (openMarkerCount (mkState cex6doc)) i) ∧
    (scanDoc cex6doc).1 = true ∧
    (scanDoc cex6doc).2.line = 2 := by
  exact ⟨by decide, by decide, by decide, by decide⟩

/-- Witness for C6's amended theorem at the unterminated document
`"---\nabc"` with `endLine = lineMax = 2`. -/
theorem autoclose_at_bound_witness :
    (frontMatter (mkState openDoc) 0 2 false).1 = true ∧
    (frontMatter (mkState openDoc) 0 2 false).2.line = 2 :=
  autoclose_at_bound (mkState openDoc) 2 (by decide) (by decide) (by decide) (by decide)
    (by decide)

/-- Witness for C10's theorem at `"---\na\n...\nb"` (`j = 2`,
`endLine = lineMax = 4`): the rule matches and resumes at line 3, right
after the `"..."` line. -/
theorem dots_line_terminates_witness :
    (frontMatter (mkState c10doc) 0 4 false).1 = true ∧
    (frontMatter (mkState c10doc) 0 4 false).2.line = 3 :=
  dots_line_terminates (mkState c10doc) 4 2 (by decide) (by decide) (by decide) (by decide)
    (by decide) (by decide) (by decide)


/-- Bind of a success in the `Except` monad. -/
theorem ebind_ok {α β : Type} (a : α) (f : α → Except Unit β) :
    (Except.ok a >>= f : Except Unit β) = f a := rfl

/-- Deleting keys that a predicate rejects does not change the lookup of
a key the predicate keeps. -/
theorem lookup_filter_keep (fs : List (String × JSVal)) (f : String → Bool) (k : String)
    (hf : f k = true) :
    (fs.filter (fun p => f p.1)).lookup k = fs.lookup k := by
  induction fs with
  | nil => rfl
  | cons a t ih =>
    by_cases hfa : f a.1 = true
    · simp only [List.filter_cons, hfa, if_pos]
      simp only [List.lookup]
      cases h : k == a.1
      · simpa [h] using ih
      · simp [h]
    · have hne : (k == a.1) = false := by
        rcases Bool.eq_false_or_eq_true (k == a.1) with h | h
        · exact absurd ((beq_iff_eq.mp h) ▸ hf) hfa
        · exact h
      simp only [List.filter_cons, Bool.not_eq_true] at *
      simp only [hfa]
      simp only [List.lookup, hne]
      exact ih

/-- `strLookup` stability under key-filtering. -/
theorem strLookup_filter_keep (fs : List (String × JSVal)) (f : String → Bool) (k : String)
    (hf : f k = true) :
    strLookup (fs.filter (fun p => f p.1)) k = strLookup fs k := by
  unfold strLookup
  rw [lookup_filter_keep fs f k hf]

/-- `isStrLookup` stability under key-filtering. -/
theorem isStrLookup_filter_keep (fs : List (String × JSVal)) (f : String → Bool) (k : String)
    (hf : f k = true) :
    isStrLookup (fs.filter (fun p => f p.1)) k = isStrLookup fs k := by
  unfold isStrLookup
  rw [strLookup_filter_keep fs f k hf]

/-- `lookupVal` stability under key-filtering. -/
theorem lookupVal_filter_keep (fs : List (String × JSVal)) (f : String → Bool) (k : String)
    (hf : f k = true) :
    lookupVal (fs.filter (fun p => f p.1)) k = lookupVal fs k := by
  unfold lookupVal
  rw [lookup_filter_keep fs f k hf]

/-- `readStr` on a mapping: it never throws, returns the string stored at
the key (when one is), and deletes the key exactly when its value is a
string. -/
theorem readStr_obj (fs : List (String × JSVal)) (k : String) :
    readStr (.obj fs) k =
      .ok (strLookup fs k, .obj (fs.filter (fun p => !(isStrLookup fs k && p.1 == k)))) := by
  cases h : fs.lookup k with
  | none => simp [readStr, getProp, deleteProp, strLookup, isStrLookup, h]
  | some v => cases v <;> simp [readStr, getProp, deleteProp, strLookup, isStrLookup, h]

/-- Key membership after filtering by a predicate on keys. -/
theorem mem_keys_filter (fs : List (String × JSVal)) (f : String → Bool) (k : String) :
    k ∈ keysOf (fs.filter (fun p => f p.1)) ↔ k ∈ keysOf fs ∧ f k = true := by
  simp only [keysOf, List.mem_map, List.mem_filter]
  constructor
  · rintro ⟨p, ⟨hp, hfp⟩, hk⟩
    exact ⟨⟨p, hp, hk⟩, hk ▸ hfp⟩
  · rintro ⟨⟨p, hp, hk⟩, hfk⟩
    exact ⟨p, ⟨hp, hk.symm ▸ hfk⟩, hk⟩


/-- `readStr` on an already-filtered mapping, with the lookup rewritten to
the original mapping and the filters composed. -/
theorem readStr_step (fs : List (String × JSVal)) (f : String → Bool) (k : String)
    (hf : f k = true) :
    readStr (.obj (fs.filter (fun p => f p.1))) k =
      .ok (strLookup fs k,
        .obj (fs.filter (fun p => !(isStrLookup fs k && p.1 == k) && f p.1))) := by
  rw [readStr_obj]
  rw [strLookup_filter_keep fs f k hf]
  simp only [isStrLookup_filter_keep fs f k hf]
  rw [List.filter_filter]

/-- Bind of a thrown error in the `Except` monad. -/
theorem ebind_error {α β : Type} (e : Unit) (f : α → Except Unit β) :
    (Except.error e >>= f : Except Unit β) = .error e := rfl

/-- Bind of `pure` in the `Except` monad. -/
theorem epure_bind {α β : Type} (a : α) (f : α → Except Unit β) :
    ((pure a : Except Unit α) >>= f) = f a := rfl

/-- `pure` is `Except.ok`. -/
theorem epure_eq {α : Type} (a : α) : (pure a : Except Unit α) = .ok a := rfl

/-- Property read on a mapping never throws. -/
theorem getProp_obj (gs : List (String × JSVal)) (k : String) :
    getProp (.obj gs) k = .ok (lookupVal gs k) := rfl

/-- `delete` on a mapping drops the key. -/
theorem deleteProp_obj (gs : List (String × JSVal)) (k : String) :
    deleteProp (.obj gs) k = .obj (gs.filter (fun p => !(p.1 == k))) := rfl

/-- The master characterization of the extraction block on a mapping:
it throws exactly when `parseAuthor` throws on
`author || authors`, and otherwise produces the `TitleBlock` whose
scalar fields are the string-valued recognized keys and the residual
mapping of all unconsumed fields in their original order. -/
theorem extract_obj (fs : List (String × JSVal)) :
    extractTitleBlock (.obj fs) =
      match parseAuthor (authorsArg fs) with
      | .error e => .error e
      | .ok as => .ok (extractedTB fs as, .obj (residualFields fs)) := by
  conv_lhs => rw [extractTitleBlock]
  rw [readStr_obj fs "title", ebind_ok]
  dsimp only
  rw [readStr_step fs (fun a => !(isStrLookup fs "title" && a == "title")) "subtitle"
    (by simp), ebind_ok]
  dsimp only
  rw [readStr_step fs (fun a => !(isStrLookup fs "subtitle" && a == "subtitle") && (!(isStrLookup fs "title" && a == "title"))) "abstract"
    (by simp), ebind_ok]
  dsimp only
  rw [readStr_step fs (fun a => !(isStrLookup fs "abstract" && a == "abstract") && (!(isStrLookup fs "subtitle" && a == "subtitle") && (!(isStrLookup fs "title" && a == "title")))) "date"
    (by simp), ebind_ok]
  dsimp only
  rw [readStr_step fs (fun a => !(isStrLookup fs "date" && a == "date") && (!(isStrLookup fs "abstract" && a == "abstract") && (!(isStrLookup fs "subtitle" && a == "subtitle") && (!(isStrLookup fs "title" && a == "title"))))) "date-modified"
    (by simp), ebind_ok]
  dsimp only
  rw [readStr_step fs (fun a => !(isStrLookup fs "date-modified" && a == "date-modified") && (!(isStrLookup fs "date" && a == "date") && (!(isStrLookup fs "abstract" && a == "abstract") && (!(isStrLookup fs "subtitle" && a == "subtitle") && (!(isStrLookup fs "title" && a == "title")))))) "doi"
    (by simp), ebind_ok]
  dsimp only
  rw [getProp_obj, lookupVal_filter_keep fs (fun a => !(isStrLookup fs "doi" && a == "doi") && (!(isStrLookup fs "date-modified" && a == "date-modified") && (!(isStrLookup fs "date" && a == "date") && (!(isStrLookup fs "abstract" && a == "abstract") && (!(isStrLookup fs "subtitle" && a == "subtitle") && (!(isStrLookup fs "title" && a == "title"))))))) "author" (by simp), ebind_ok]
  rw [show authorsArg fs =
    (if jsTruthy (lookupVal fs "author") = true then lookupVal fs "author"
     else lookupVal fs "authors") from rfl]
  by_cases hT : jsTruthy (lookupVal fs "author") = true
  · rw [if_pos hT, if_pos hT, epure_bind]
    cases hpa : parseAuthor (lookupVal fs "author") with
    | error e => rw [ebind_error]
    | ok as =>
      rw [ebind_ok]
      dsimp only
      rw [epure_eq]
      rw [deleteProp_obj, deleteProp_obj, List.filter_filter, List.filter_filter]
      simp only [Except.ok.injEq, Prod.mk.injEq, JSVal.obj.injEq]
      refine ⟨rfl, ?_⟩
      unfold residualFields
      apply List.filter_congr
      intro x _
      simp only [consumedKey, ← Bool.not_or]
      congr 1
      ac_rfl
  · rw [if_neg hT, if_neg hT, getProp_obj,
      lookupVal_filter_keep fs (fun a => !(isStrLookup fs "doi" && a == "doi") && (!(isStrLookup fs "date-modified" && a == "date-modified") && (!(isStrLookup fs "date" && a == "date") && (!(isStrLookup fs "abstract" && a == "abstract") && (!(isStrLookup fs "subtitle" && a == "subtitle") && !(isStrLookup fs "title" && a == "title")))))) "authors" (by simp),
      ebind_ok]
    cases hpa : parseAuthor (lookupVal fs "authors") with
    | error e => rw [ebind_error]
    | ok as =>
      rw [ebind_ok]
      dsimp only
      rw [epure_eq]
      rw [deleteProp_obj, deleteProp_obj, List.filter_filter, List.filter_filter]
      simp only [Except.ok.injEq, Prod.mk.injEq, JSVal.obj.injEq]
      refine ⟨rfl, ?_⟩
      unfold residualFields
      apply List.filter_congr
      intro x _
      simp only [consumedKey, ← Bool.not_or]
      congr 1
      ac_rfl


/-- Claim C2 (amended): for every parsed mapping on which the author
normalizer does not throw, extraction yields the residual consisting
exactly of the keys not consumed, where a recognized scalar key is
consumed iff its value is a string (and then populates its field, whose
value is recorded here) and `author`/`authors` are consumed
unconditionally; no key both populates a field and stays in the
residual. The claim's full partition fails only in that a consumed
`author`/`authors` key may populate nothing and hence vanish from both
sides, as `extract_key_partition_cex` shows. -/
theorem extract_key_partition (fs : List (String × JSVal)) (as : List Author)
    (hpa : parseAuthor (authorsArg fs) = .ok as) :
    extractTitleBlock (.obj fs) = .ok (extractedTB fs as, .obj (residualFields fs)) ∧
    (∀ k, k ∈ keysOf (residualFields fs) ↔ k ∈ keysOf fs ∧ consumedKey fs k = false) ∧
    (∀ k, consumedKey fs k = true → k ∉ keysOf (residualFields fs)) ∧
    (∀ k, k ∈ movedKeysSpec fs (extractedTB fs as) → k ∉ keysOf (residualFields fs)) ∧
    (extractedTB fs as).title = strLookup fs "title" ∧
    (extractedTB fs as).subtitle = strLookup fs "subtitle" ∧
    (extractedTB fs as).abstract = strLookup fs "abstract" ∧
    (extractedTB fs as).date = strLookup fs "date" ∧
    (extractedTB fs as).modified = strLookup fs "date-modified" ∧
    (extractedTB fs as).doi = strLookup fs "doi" ∧
    (extractedTB fs as).authors = some as := by
  have hmem : ∀ k, k ∈ keysOf (residualFields fs) ↔ k ∈ keysOf fs ∧ consumedKey fs k = false := by
    intro k
    have h := mem_keys_filter fs (fun a => !(consumedKey fs a)) k
    unfold residualFields
    rw [show (fun p : String × JSVal => !(consumedKey fs p.1)) =
        (fun p : String × JSVal => (fun a => !(consumedKey fs a)) p.1) from rfl]
    rw [h, Bool.not_eq_true']
  have hnot : ∀ k, consumedKey fs k = true → k ∉ keysOf (residualFields fs) := by
    intro k hk hin
    have := ((hmem k).mp hin).2
    rw [hk] at this
    simp at this
  refine ⟨by rw [extract_obj, hpa], hmem, hnot, ?_, rfl, rfl, rfl, rfl, rfl, rfl, rfl⟩
  intro k hk
  apply hnot k
  unfold movedKeysSpec at hk
  simp only [List.mem_append] at hk
  rcases hk with ((((((h | h) | h) | h) | h) | h) | h)
  · split at h
    · next hc =>
      simp only [List.mem_singleton] at h
      subst h
      have hc2 : isStrLookup fs "title" = true := hc
      simp [consumedKey, hc2]
    · simp at h
  · split at h
    · next hc =>
      simp only [List.mem_singleton] at h
      subst h
      have hc2 : isStrLookup fs "subtitle" = true := hc
      simp [consumedKey, hc2]
    · simp at h
  · split at h
    · next hc =>
      simp only [List.mem_singleton] at h
      subst h
      have hc2 : isStrLookup fs "abstract" = true := hc
      simp [consumedKey, hc2]
    · simp at h
  · split at h
    · next hc =>
      simp only [List.mem_singleton] at h
      subst h
      have hc2 : isStrLookup fs "date" = true := hc
      simp [consumedKey, hc2]
    · simp at h
  · split at h
    · next hc =>
      simp only [List.mem_singleton] at h
      subst h
      have hc2 : isStrLookup fs "date-modified" = true := hc
      simp [consumedKey, hc2]
    · simp at h
  · split at h
    · next hc =>
      simp only [List.mem_singleton] at h
      subst h
      have hc2 : isStrLookup fs "doi" = true := hc
      simp [consumedKey, hc2]
    · simp at h
  · split at h
    · next hc =>
      rw [List.mem_filter] at h
      have h2 := h.2
      rw [Bool.or_eq_true] at h2
      rcases h2 with ha | ha
      · rw [beq_iff_eq.mp ha]
        simp [consumedKey]
      · rw [beq_iff_eq.mp ha]
        simp [consumedKey]
    · simp at h

/-- Claim C3 (amended): when both `author` and `authors` are present and
the `author` value is truthy, extraction removes both keys from the
mapping and the value handed to the author normalizer is that of
`author` (not `authors`): `TitleBlock.authors` is `parseAuthor` of the
`author` value. -/
theorem extract_author_precedence (fs : List (String × JSVal)) (va : JSVal) (as : List Author)
    (_hin1 : "author" ∈ keysOf fs) (_hin2 : "authors" ∈ keysOf fs)
    (hva : lookupVal fs "author" = va) (htr : jsTruthy va = true)
    (hpa : parseAuthor va = .ok as) :
    extractTitleBlock (.obj fs) = .ok (extractedTB fs as, .obj (residualFields fs)) ∧
    (extractedTB fs as).authors = some as ∧
    "author" ∉ keysOf (residualFields fs) ∧
    "authors" ∉ keysOf (residualFields fs) := by
  have hargs : authorsArg fs = va := by
    unfold authorsArg
    rw [hva, if_pos htr]
  have hmem : ∀ k, k ∈ keysOf (residualFields fs) → consumedKey fs k = false := by
    intro k hin
    have h := mem_keys_filter fs (fun a => !(consumedKey fs a)) k
    unfold residualFields at hin
    rw [show (fun p : String × JSVal => !(consumedKey fs p.1)) =
        (fun p : String × JSVal => (fun a => !(consumedKey fs a)) p.1) from rfl] at hin
    have h2 := (h.mp hin).2
    rwa [Bool.not_eq_true'] at h2
  refine ⟨by rw [extract_obj, hargs, hpa], rfl, ?_, ?_⟩
  · intro hin
    have := hmem _ hin
    simp [consumedKey] at this
  · intro hin
    have := hmem _ hin
    simp [consumedKey] at this


/-- The `str` helper of `parseAuthor` on a mapping never throws and
returns the string stored at the key when there is one. -/
theorem strProp_obj (a : List (String × JSVal)) (k : String) :
    strProp (.obj a) k = .ok (strLookup a k) := by
  cases h : a.lookup k with
  | none => simp [strProp, getProp, strLookup, h]
  | some v => cases v <;> simp [strProp, getProp, strLookup, h]

/-- Claim C7 (amended): for a mapping-shaped author item the affiliation
list is resolved by the two-tier rule with JavaScript truthiness: a
non-empty string under `affiliation` is the whole list (an empty string
is falsy and falls through); otherwise a truthy `affiliations` value is
coerced to a sequence whose string entries contribute themselves and
whose non-string entries all take the mapping branch (the guard
`typeof(affilRaw === "object")` is the string `"boolean"`, always
truthy), contributing their `name` property when it is a string — with
`null` entries throwing on the `.name` read (`affiliationsAlt` models
that branch, `Except.error` models the throw); name defaults to `""` and
orcid is kept only when it is a string. -/
theorem parse_author_affiliations (a : List (String × JSVal)) :
    parseAuthor (.obj a) =
      match (match strLookup a "affiliation" with
             | some s => if s = "" then affiliationsAlt (.obj a) else .ok [s]
             | none => affiliationsAlt (.obj a)) with
      | .error e => .error e
      | .ok affs => .ok [⟨(strLookup a "name").getD "", some affs, strLookup a "orcid"⟩] := by
  cases hs : strLookup a "affiliation" with
  | none =>
    cases hAlt : affiliationsAlt (.obj a) with
    | error e => simp [parseAuthor, parseAuthorItem, jsTypeof, strProp_obj, hs, hAlt, List.foldlM]
    | ok affs => simp [parseAuthor, parseAuthorItem, jsTypeof, strProp_obj, hs, hAlt, List.foldlM]
  | some s =>
    by_cases hse : s = ""
    · subst hse
      cases hAlt : affiliationsAlt (.obj a) with
      | error e => simp [parseAuthor, parseAuthorItem, jsTypeof, strProp_obj, hs, hAlt, List.foldlM]
      | ok affs => simp [parseAuthor, parseAuthorItem, jsTypeof, strProp_obj, hs, hAlt, List.foldlM]
    · simp [parseAuthor, parseAuthorItem, jsTypeof, strProp_obj, hs, hse, List.foldlM]


/-- Witness for C2's amended theorem at the mapping
`{title: "T", x: 1, author: "A"}`. -/
theorem extract_key_partition_witness :
    extractTitleBlock (.obj wfs2) = .ok (extractedTB wfs2 wAs2, .obj (residualFields wfs2)) ∧
    (∀ k, k ∈ keysOf (residualFields wfs2) ↔ k ∈ keysOf wfs2 ∧ consumedKey wfs2 k = false) ∧
    (∀ k, consumedKey wfs2 k = true → k ∉ keysOf (residualFields wfs2)) ∧
    (∀ k, k ∈ movedKeysSpec wfs2 (extractedTB wfs2 wAs2) → k ∉ keysOf (residualFields wfs2)) ∧
    (extractedTB wfs2 wAs2).title = strLookup wfs2 "title" ∧
    (extractedTB wfs2 wAs2).subtitle = strLookup wfs2 "subtitle" ∧
    (extractedTB wfs2 wAs2).abstract = strLookup wfs2 "abstract" ∧
    (extractedTB wfs2 wAs2).date = strLookup wfs2 "date" ∧
    (extractedTB wfs2 wAs2).modified = strLookup wfs2 "date-modified" ∧
    (extractedTB wfs2 wAs2).doi = strLookup wfs2 "doi" ∧
    (extractedTB wfs2 wAs2).authors = some wAs2 :=
  extract_key_partition wfs2 wAs2 (by rfl)

/-- Witness for C3's amended theorem at the mapping
`{author: "A", authors: "B"}`. -/
theorem extract_author_precedence_witness :
    extractTitleBlock (.obj wfs3) = .ok (extractedTB wfs3 wAs2, .obj (residualFields wfs3)) ∧
    (extractedTB wfs3 wAs2).authors = some wAs2 ∧
    "author" ∉ keysOf (residualFields wfs3) ∧
    "authors" ∉ keysOf (residualFields wfs3) :=
  extract_author_precedence wfs3 (.str "A") wAs2 (by decide) (by decide) (by rfl) (by rfl)
    (by rfl)

end Quarto
